import Mathlib

/-!
Verification development for the Genryu Japan frontend glue layer:
the Strapi response normalizer (`strapiClient`), the Markdown pipeline
(`markdownParser`), and the i18n locale resolution (`i18n`).

JavaScript values flowing through the normalizer are modelled by the
inductive `JValue`; JS objects become association lists preserving key
insertion order, with first-match lookup (JS objects cannot carry
duplicate keys, so on the image of real data both semantics agree).
-/

namespace Genryu

/-- Model of a JavaScript/JSON value as handled by `strapiClient.ts`.
Numbers are modelled as integers (no claim involves fractional values). -/
inductive JValue where
  | null
  | bool (b : Bool)
  | num (n : Int)
  | str (s : String)
  | arr (elems : List JValue)
  | obj (fields : List (String × JValue))

namespace JValue

/-- JS falsiness (`!entity`): `null`/`undefined`, `false`, `0`, `''`.
`JValue.null` stands for both JS `null` and `undefined`. -/
def isFalsy : JValue → Bool
  | .null => true
  | .bool b => !b
  | .num n => n == 0
  | .str s => s == ""
  | _ => false

end JValue

mutual

/-- Structural size of a `JValue`, used as recursion fuel for `normalize`. -/
def jsize : JValue → Nat
  | .null => 1
  | .bool _ => 1
  | .num _ => 1
  | .str s => s.length + 1
  | .arr xs => 1 + jsizeL xs
  | .obj fs => 1 + jsizeF fs

/-- Size of a list of values. -/
def jsizeL : List JValue → Nat
  | [] => 1
  | x :: xs => 1 + jsize x + jsizeL xs

/-- Size of an object's field list. -/
def jsizeF : List (String × JValue) → Nat
  | [] => 1
  | p :: ps => 1 + jsize p.2 + jsizeF ps

end

/-- First-match lookup in an object's field list (JS property access). -/
def lookupField : List (String × JValue) → String → Option JValue
  | [], _ => none
  | p :: ps, k => if p.1 = k then some p.2 else lookupField ps k

/-- The JS `key in obj` test. -/
def hasKey (fs : List (String × JValue)) (k : String) : Bool :=
  (lookupField fs k).isSome

/-- Enumerable own properties produced by a JS object spread `{...v}`:
objects spread their fields, arrays spread index-keyed elements, strings
spread index-keyed one-character strings, primitives spread nothing. -/
def spreadFields : JValue → List (String × JValue)
  | .obj fs => fs
  | .arr xs => xs.enum.map (fun p => (toString p.1, p.2))
  | .str s => s.data.enum.map (fun p => (toString p.1, .str (String.singleton p.2)))
  | _ => []

/-- The wrapper test in `normalize`'s loop:
`value && typeof value === 'object' && 'data' in value`. -/
def isWrapper : JValue → Bool
  | .obj fs => hasKey fs "data"
  | _ => false

/-- `value.data` of a relation wrapper (defaulting to null when absent; an
`isWrapper` value always carries the key). -/
def getData : JValue → JValue
  | .obj fs => (lookupField fs "data").getD .null
  | _ => .null

/-- The field list of `{ id, ...(attributes ?? {}) }` for an entity-shaped
object: the `id` property comes first (keeping the entity id unless the
spread attributes override it, as JS spread does), followed by the
attribute properties other than `id` in their original order. -/
def mergedOf (fs : List (String × JValue)) : List (String × JValue) :=
  let idv := (lookupField fs "id").getD .null
  let attrs := spreadFields ((lookupField fs "attributes").getD .null)
  ("id", (lookupField attrs "id").getD idv) :: attrs.filter (fun p => p.1 ≠ "id")

/-- The branch `normalize` applies to a relation-wrapper property value
(`rec` is the recursive call): null payload to null, sequence payload to the
elementwise recursion, any other payload to its recursion. -/
def wrapStep (rec : JValue → JValue) (w : JValue) : JValue :=
  match getData w with
  | .null => .null
  | .arr xs => .arr (xs.map rec)
  | r => rec r

/-- One evaluation step of `normalize` from `strapiClient.ts`, with the
recursive call abstracted as `rec`: falsy input yields null; an object
carrying both `id` and `attributes` is flattened to `{ id, ...attributes }`
with every relation-wrapper property rewritten by `wrapStep`; anything else
is returned as-is. -/
def normalizeBody (rec : JValue → JValue) (v : JValue) : JValue :=
  if v.isFalsy then .null
  else
    match v with
    | .obj fs =>
      if hasKey fs "id" && hasKey fs "attributes" then
        .obj ((mergedOf fs).map (fun p =>
          (p.1, if isWrapper p.2 then wrapStep rec p.2 else p.2)))
      else v
    | _ => v

/-- Fuel-indexed evaluation of `normalize` from `strapiClient.ts`.
The fuel only bounds recursion depth; `normalizeAux_fuel_irrelevant`
shows any fuel of at least `jsize v` computes the same value, and
`normalize` below supplies such a fuel, so the definition is total
exactly like the source (which terminates structurally on its input). -/
def normalizeAux : Nat → JValue → JValue
  | 0, v => v
  | fuel + 1, v => normalizeBody (normalizeAux fuel) v

/-- `normalize` from `strapiClient.ts` (Strapi v5 response normalizer). -/
def normalize (v : JValue) : JValue := normalizeAux (jsize v) v

/-- The rewrite `normalize` performs on a relation-wrapper property value. -/
def normalizeWrapper : JValue → JValue := wrapStep normalize

/-- What the property loop of `normalize` does to one property value:
relation wrappers are rewritten, everything else is kept. -/
def wrapIf (z : JValue) : JValue :=
  if isWrapper z then normalizeWrapper z else z

/-- The entity test of `normalize`:
`typeof entity === 'object' && 'id' in entity && 'attributes' in entity`. -/
def entityShaped : JValue → Bool
  | .obj fs => hasKey fs "id" && hasKey fs "attributes"
  | _ => false

/-- An entity whose attributes reintroduce an `attributes` key: flattening
it produces an object that is itself entity-shaped again. -/
def reintroducesAttributes : JValue → Bool
  | .obj fs => hasKey fs "id" && hasKey fs "attributes" && hasKey (mergedOf fs) "attributes"
  | _ => false

/-- The field list of an object value (else empty). -/
def objFields : JValue → List (String × JValue)
  | .obj fs => fs
  | _ => []

/-!
## Markdown pipeline (`markdownParser.ts`)

Strings are manipulated through their character lists. The JS regex
replacements of the source are modelled by executable scanners; each fuelled
scanner consumes at least one character per step, so fuel `length + 1`
always suffices and the fuelled definition computes the total function the
regex denotes.
-/

/-- JS `\s` on the characters that can occur here: space, tab, newline,
carriage return, vertical tab, form feed, and no-break space. -/
def jsWs (c : Char) : Bool :=
  c == ' ' || c == '\t' || c == '\n' || c == '\r' ||
  c == '\x0b' || c == '\x0c' || c == ' '

/-- JS `String.prototype.trim` on a character list. -/
def trimChars (l : List Char) : List Char :=
  ((l.dropWhile jsWs).reverse.dropWhile jsWs).reverse

/-- JS `String.prototype.trimEnd` on a character list. -/
def trimEndChars (l : List Char) : List Char :=
  (l.reverse.dropWhile jsWs).reverse

/-- Replace every maximal run of `p`-characters by the single character
`rep` (the JS global replacements of whitespace runs and of hyphen runs). -/
def collapseRunsAux (p : Char → Bool) (rep : Char) : Nat → List Char → List Char
  | 0, l => l
  | _ + 1, [] => []
  | fuel + 1, c :: rest =>
    if p c then rep :: collapseRunsAux p rep fuel (rest.dropWhile p)
    else c :: collapseRunsAux p rep fuel rest

/-- Entry point of `collapseRunsAux` with always-sufficient fuel. -/
def collapseRuns (p : Char → Bool) (rep : Char) (l : List Char) : List Char :=
  collapseRunsAux p rep (l.length + 1) l

/-- JS `/#+\s/g → ''`: remove every maximal `#`-run that is followed by one
whitespace character, together with that character (a run not followed by
whitespace matches at none of its positions and is kept). -/
def stripHashWsAux : Nat → List Char → List Char
  | 0, l => l
  | _ + 1, [] => []
  | fuel + 1, c :: rest =>
    if c = '#' then
      match rest.dropWhile (fun d => d == '#') with
      | d :: ds =>
        if jsWs d then stripHashWsAux fuel ds
        else c :: (rest.takeWhile (fun d => d == '#') ++ stripHashWsAux fuel (d :: ds))
      | [] => c :: rest
    else c :: stripHashWsAux fuel rest

/-- Entry point of `stripHashWsAux` with always-sufficient fuel. -/
def stripHashWs (l : List Char) : List Char := stripHashWsAux (l.length + 1) l

/-- Split a list at the first occurrence of `delim`, returning the part
before it and the part after it. -/
def findSub (delim : List Char) : List Char → Option (List Char × List Char)
  | [] => if delim = [] then some ([], []) else none
  | c :: rest =>
    if delim.isPrefixOf (c :: rest) then some ([], (c :: rest).drop delim.length)
    else
      match findSub delim rest with
      | some p => some (c :: p.1, p.2)
      | none => none

/-- Locate the closing delimiter for a lazy group `(.+?)`: at least one
character of content, no newline (JS `.` does not match one), up to the
first occurrence of `delim`. Returns the content and the part after the
delimiter. -/
def findClose (delim : List Char) : List Char → Option (List Char × List Char)
  | [] => none
  | c :: rest =>
    if c = '\n' then none
    else
      match findSub delim rest with
      | some p => if '\n' ∈ p.1 then none else some (c :: p.1, p.2)
      | none => none

/-- JS `/D(.+?)D/g → '$1'` for a delimiter `D` (bold `**`, italic `*`,
inline code backtick): unwrap each delimited lazy group, leaving the
content. -/
def replaceDelimAux (delim : List Char) : Nat → List Char → List Char
  | 0, l => l
  | _ + 1, [] => []
  | fuel + 1, c :: rest =>
    if delim.isPrefixOf (c :: rest) then
      match findClose delim ((c :: rest).drop delim.length) with
      | some p => p.1 ++ replaceDelimAux delim fuel p.2
      | none => c :: replaceDelimAux delim fuel rest
    else c :: replaceDelimAux delim fuel rest

/-- Entry point of `replaceDelimAux` with always-sufficient fuel. -/
def replaceDelim (delim : List Char) (l : List Char) : List Char :=
  replaceDelimAux delim (l.length + 1) l

/-- JS `/\[(.+?)\]\(.+?\)/g → '$1'`: replace each Markdown link by its
label. -/
def replaceLinkAux : Nat → List Char → List Char
  | 0, l => l
  | _ + 1, [] => []
  | fuel + 1, c :: rest =>
    if c = '[' then
      match findClose ([']', '('] : List Char) rest with
      | some p =>
        match findClose ([')'] : List Char) p.2 with
        | some q => p.1 ++ replaceLinkAux fuel q.2
        | none => c :: replaceLinkAux fuel rest
      | none => c :: replaceLinkAux fuel rest
    else c :: replaceLinkAux fuel rest

/-- Entry point of `replaceLinkAux` with always-sufficient fuel. -/
def replaceLink (l : List Char) : List Char := replaceLinkAux (l.length + 1) l

/-- JS `/<[^>]*>/g → ''`: remove each `<...>` region up to the first `>`. -/
def stripHtmlAux : Nat → List Char → List Char
  | 0, l => l
  | _ + 1, [] => []
  | fuel + 1, c :: rest =>
    if c = '<' then
      match findSub ['>'] rest with
      | some p => stripHtmlAux fuel p.2
      | none => c :: stripHtmlAux fuel rest
    else c :: stripHtmlAux fuel rest

/-- Entry point of `stripHtmlAux` with always-sufficient fuel. -/
def stripHtml (l : List Char) : List Char := stripHtmlAux (l.length + 1) l

/-- The character class kept by the slug filter
`[^\w\s぀-ゟ゠-ヿ一-龯-]` (complemented): ASCII word
characters, whitespace, Hiragana, Katakana, CJK ideographs, hyphen. -/
def slugKeepChar (c : Char) : Bool :=
  c.isAlphanum || c == '_' || jsWs c ||
  (decide (0x3040 ≤ c.toNat) && decide (c.toNat ≤ 0x309F)) ||
  (decide (0x30A0 ≤ c.toNat) && decide (c.toNat ≤ 0x30FF)) ||
  (decide (0x4E00 ≤ c.toNat) && decide (c.toNat ≤ 0x9FAF)) ||
  c == '-'

/-- JS `/^-|-$/g → ''`: remove one leading and one trailing hyphen. -/
def stripOuterHyphens (l : List Char) : List Char :=
  let l1 := match l with
    | '-' :: t => t
    | _ => l
  match l1.reverse with
  | '-' :: t => t.reverse
  | _ => l1

/-- The base slug of a heading text, before deduplication: steps 1-5 of the
slug factory in `markdownParser.ts` (trim, lowercase, filter, whitespace
runs to hyphens, collapse hyphen runs, strip outer hyphens, truncate to 50,
fall back to `section` when empty). `Char.toLower` lowers ASCII letters only;
every claim-relevant character is ASCII or Japanese, which JS
`toLowerCase` treats identically. -/
def baseSlug (text : String) : String :=
  let cs := (trimChars text.data).map Char.toLower
  let kept := cs.filter slugKeepChar
  let hyph := collapseRuns (fun c => c == '-') '-' (collapseRuns jsWs '-' kept)
  let sliced := (stripOuterHyphens hyph).take 50
  if sliced = [] then "section" else String.mk sliced

/-- Registry lookup (`seen.get`). -/
def lookupCount : List (String × Nat) → String → Option Nat
  | [], _ => none
  | p :: ps, k => if p.1 = k then some p.2 else lookupCount ps k

/-- Registry update (`seen.set`): replace in place or append. -/
def upsertCount : List (String × Nat) → String → Nat → List (String × Nat)
  | [], k, n => [(k, n)]
  | p :: ps, k, n => if p.1 = k then (k, n) :: ps else p :: upsertCount ps k n

/-- The slug emitted for a base slug previously seen `count` times:
unchanged the first time, `-2`, `-3`, ... afterwards. -/
def slugOfCount (b : String) (count : Nat) : String :=
  if count = 0 then b else b ++ "-" ++ toString (count + 1)

/-- Run the slug factory of `createSlugFactory` over a list of heading
texts, threading the per-document registry: emit the slug for the current
count of the base slug (`seen.get(slug) ?? 0`), then record the incremented
count (`seen.set(slug, count + 1)`). -/
def runSlugsAux (seen : List (String × Nat)) : List String → List String
  | [] => []
  | txt :: ts =>
    slugOfCount (baseSlug txt) ((lookupCount seen (baseSlug txt)).getD 0) ::
      runSlugsAux
        (upsertCount seen (baseSlug txt) ((lookupCount seen (baseSlug txt)).getD 0 + 1)) ts

/-- Slugs produced for a document's heading texts, with a fresh registry. -/
def runSlugs (ts : List String) : List String := runSlugsAux [] ts

/-- Strip inline markup from a heading's display text, as `extractHeadings`
does: link, inline code, bold, italic, HTML tags, then trim. -/
def headingCleanText (raw : List Char) : String :=
  String.mk (trimChars (stripHtml
    (replaceDelim ['*']
      (replaceDelim ['*', '*']
        (replaceDelim [Char.ofNat 0x60] (replaceLink raw))))))

/-- JS `String.prototype.split` with a single separator character, on
character lists (splitting an empty list yields one empty piece, as JS
does). -/
def splitCharsOn (sep : Char) : List Char → List (List Char)
  | [] => [[]]
  | c :: rest =>
    if c = sep then [] :: splitCharsOn sep rest
    else
      match splitCharsOn sep rest with
      | [] => [[c]]
      | g :: gs => (c :: g) :: gs

/-- Match one line against `/^(#{1,3})\s+(.+)$/`: one to three leading
hashes, at least one whitespace character, and at least one further
character. Returns the level and the cleaned display text (the source trims
the capture, so the whitespace-run boundary of `\s+` is immaterial). -/
def matchHeadingLine (cs : List Char) : Option (Nat × String) :=
  let k := (cs.takeWhile (fun c => c == '#')).length
  let rest := cs.dropWhile (fun c => c == '#')
  if 1 ≤ k ∧ k ≤ 3 then
    match rest with
    | c :: cs' =>
      if jsWs c then
        if cs' = [] then none
        else some (k, headingCleanText (trimChars rest))
      else none
    | [] => none
  else none

/-- A heading produced by `extractHeadings`. -/
structure Heading where
  level : Nat
  text : String
  id : String
deriving DecidableEq, Repr

/-- `extractHeadings` from `markdownParser.ts`: match each line against the
heading pattern, clean the display text, and slugify with one fresh
registry per call. -/
def extractHeadings (markdown : String) : List Heading :=
  if markdown = "" then []
  else
    let ms := (splitCharsOn '\n' markdown.data).filterMap matchHeadingLine
    let ids := runSlugs (ms.map (fun p => p.2))
    (ms.zip ids).map (fun p => ⟨p.1.1, p.1.2, p.2⟩)

/-- The number of maximal non-whitespace runs: the value of
`content.trim().split(/\s+/).filter(Boolean).length`. -/
def countWords (s : String) : Nat :=
  (s.data.foldl
    (fun acc c =>
      if jsWs c then (acc.1, false)
      else if acc.2 then acc else (acc.1 + 1, true))
    (0, false)).1

/-- `calculateReadingTime` from `markdownParser.ts`. `Math.ceil (a / b)` on
naturals is `(a + b - 1) / b`. -/
def calculateReadingTime (content : String) (locale : String) : Nat :=
  if content = "" then 0
  else if locale = "ja" then
    ((content.data.filter (fun c => !jsWs c)).length + 399) / 400
  else
    (countWords content + 199) / 200

/-- The plain text computed by `generateExcerpt` before truncation: strip
heading markers, bold, italic, links (keeping the label), inline code,
HTML tags; collapse newline runs then whitespace runs to single spaces;
trim. -/
def excerptPlain (content : String) : String :=
  String.mk (trimChars (collapseRuns jsWs ' '
    (collapseRuns (fun c => c == '\n') ' '
      (stripHtml
        (replaceDelim [Char.ofNat 0x60]
          (replaceLink
            (replaceDelim ['*']
              (replaceDelim ['*', '*'] (stripHashWs content.data)))))))))

/-- `generateExcerpt` from `markdownParser.ts`: empty input short-circuits,
plain text within the limit is returned verbatim, longer plain text is cut
at `maxLength` characters, trailing whitespace is trimmed, and the
three-character marker `...` is appended. -/
def generateExcerpt (content : String) (maxLength : Nat) : String :=
  if content = "" then ""
  else if (excerptPlain content).length ≤ maxLength then excerptPlain content
  else String.mk (trimEndChars ((excerptPlain content).data.take maxLength)) ++ "..."

/-- `parseMarkdown` from `markdownParser.ts`, with the third-party `marked`
renderer abstracted as a fallible function: empty input short-circuits to
the empty string, a successful render returns the HTML, and a thrown render
error is caught, falling back to the original Markdown input. -/
def parseMarkdown (render : String → Except String String) (markdown : String) : String :=
  if markdown = "" then ""
  else
    match render markdown with
    | .ok html => html
    | .error _ => markdown

/-!
## Content-fetch layer (`strapiClient.ts`)

The HTTP transport is abstracted as a `FetchOutcome`: either the fetch
promise rejects, or a response arrives with a success flag (`res.ok`) and a
parsed JSON body. Everything after that point is the source's own logic.
-/

/-- Generic first-match association-list lookup (string-keyed records). -/
def lookupKey {α : Type} : List (String × α) → String → Option α
  | [], _ => none
  | p :: ps, k => if p.1 = k then some p.2 else lookupKey ps k

/-- Null-safe property access `resp?.k` (absent keys and non-objects give
`null`, standing for JS `undefined`). -/
def getField (resp : JValue) (k : String) : JValue :=
  match resp with
  | .obj fs => (lookupField fs k).getD .null
  | _ => .null

/-- The `data` transformation of `normalizeResponse`: a sequence is
normalized elementwise, anything else as a single value. -/
def normalizeData (data : JValue) : JValue :=
  match data with
  | .arr xs => .arr (xs.map normalize)
  | d => normalize d

/-- `normalizeResponse` from `strapiClient.ts`, as the pair
(normalized data, meta). -/
def normalizeResponse (resp : JValue) : JValue × JValue :=
  (normalizeData (getField resp "data"), getField resp "meta")

/-- The array coercion `Array.isArray(d) ? d : d ? [d] : []` used by all
three fetch operations. -/
def toArray : JValue → List JValue
  | .arr xs => xs
  | d => if d.isFalsy then [] else [d]

/-- A value passed in the `filters` record of `fetchArticles`. -/
inductive FilterValue where
  | fnull
  | fbool (b : Bool)
  | fstr (s : String)
  | fnum (n : Int)

/-- JS `String(value)` on a filter value. -/
def fvToString : FilterValue → String
  | .fnull => "null"
  | .fbool b => if b then "true" else "false"
  | .fstr s => s
  | .fnum n => toString n

/-- One iteration of the filter loop in `fetchArticles`: null and undefined
values are skipped, `category.slug` maps to the nested relation filter, and
every other key becomes `filters[key][$eq]` (booleans stringified, exactly
as `String(value)` would). -/
def filterParam (k : String) (v : FilterValue) : Option (String × String) :=
  match v with
  | .fnull => none
  | v' =>
    if k = "category.slug" then some ("filters[category][slug][$eq]", fvToString v')
    else some ("filters[" ++ k ++ "][$eq]", fvToString v')

/-- The query parameters built by `fetchArticles`, in construction order:
locale and sort, page size, the three fixed populate flags, then the
translated filters. -/
def buildArticlesParams (locale : String) (filters : List (String × FilterValue))
    (sort : String) (pageSize : Nat) : List (String × String) :=
  [("locale", locale), ("sort", sort),
   ("pagination[pageSize]", toString pageSize),
   ("populate[coverImage]", "true"),
   ("populate[heroImage]", "true"),
   ("populate[category]", "true")]
  ++ filters.filterMap (fun p => filterParam p.1 p.2)

/-- The query parameters built by `fetchCategories`. -/
def buildCategoriesParams (locale : String) : List (String × String) :=
  [("locale", locale), ("sort", "order:asc"), ("pagination[pageSize]", "100")]

/-- Outcome of the HTTP transport: a rejected fetch, or a response with its
`res.ok` flag and parsed JSON body. -/
inductive FetchOutcome where
  | transportError
  | response (ok : Bool) (json : JValue)

/-- The `try` body of `fetchArticles`: throws on transport failure or a
non-ok status, otherwise normalizes the response and coerces `data` to an
array. -/
def fetchArticlesBody : FetchOutcome → Except String (List JValue × JValue)
  | .transportError => .error "fetch failed"
  | .response ok json =>
    if ok then
      .ok (toArray (normalizeResponse json).1, (normalizeResponse json).2)
    else .error "API error"

/-- `fetchArticles` from `strapiClient.ts`: the caught failure path returns
the safe default `{ data: [], meta: {} }`. -/
def fetchArticles (o : FetchOutcome) : List JValue × JValue :=
  match fetchArticlesBody o with
  | .ok r => r
  | .error _ => ([], .obj [])

/-- The `try` body of `fetchArticle`: like `fetchArticles` but returning the
first item (`items[0] ?? null`). -/
def fetchArticleBody : FetchOutcome → Except String JValue
  | .transportError => .error "fetch failed"
  | .response ok json =>
    if ok then .ok ((toArray (normalizeResponse json).1).headD .null)
    else .error "Article not found"

/-- `fetchArticle` from `strapiClient.ts`: the caught failure path returns
`null`. -/
def fetchArticle (o : FetchOutcome) : JValue :=
  match fetchArticleBody o with
  | .ok r => r
  | .error _ => .null

/-- The `try` body of `fetchCategories`. -/
def fetchCategoriesBody : FetchOutcome → Except String (List JValue × JValue)
  | .transportError => .error "fetch failed"
  | .response ok json =>
    if ok then
      .ok (toArray (normalizeResponse json).1, (normalizeResponse json).2)
    else .error "Failed to fetch categories"

/-- `fetchCategories` from `strapiClient.ts`: success returns
`{ data, meta }`, the caught failure path returns `{ data: [] }` with no
`meta` property (hence the `Option` on the meta component). -/
def fetchCategories (o : FetchOutcome) : List JValue × Option JValue :=
  match fetchCategoriesBody o with
  | .ok r => (r.1, some r.2)
  | .error _ => ([], none)

/-!
## Locale resolution and UI strings (`i18n.ts`)
-/

/-- The eight supported locales. -/
def locales : List String := ["en", "ja", "es", "fr", "th", "id", "zh", "de"]

/-- The default locale. -/
def defaultLocale : String := "en"

/-- `isValidLocale` from `i18n.ts`. -/
def isValidLocale (l : String) : Bool := locales.contains l

/-- The first nonempty segment of a URL pathname (`segments[0]`; the empty
string stands for JS `undefined` when there is no segment — neither is a
valid locale, so `getLocaleFromUrl` is unaffected). -/
def firstSegment (pathname : String) : String :=
  (((splitCharsOn '/' pathname.data).map String.mk).filter (fun s => s ≠ "")).headD ""

/-- `getLocaleFromUrl` from `i18n.ts`: the first path segment when it is a
recognized locale, the default locale otherwise. -/
def getLocaleFromUrl (pathname : String) : String :=
  let seg := firstSegment pathname
  if isValidLocale seg then seg else defaultLocale

/-- `uiBase` from `i18n.ts`: the English UI strings. -/
def uiBase : List (String × String) :=
  [("site.title", "Genryu Japan"),
   ("site.subtitle", "A quiet interface to deep Japanese context"),
   ("site.tagline", "The Origin of Flow"),
   ("nav.home", "Home"),
   ("nav.culture", "Culture"),
   ("nav.language", "Language"),
   ("nav.food", "Food"),
   ("nav.society", "Society"),
   ("nav.art", "Art"),
   ("nav.travel", "Travel"),
   ("nav.about", "About"),
   ("home.editorialPicks", "Editorial Picks"),
   ("home.categoryGlimpses", "Explore by Category"),
   ("home.deepDive", "Deep Dive"),
   ("home.deepDiveDesc", "Long-form essays on Japanese culture, edited from a personal perspective."),
   ("home.aboutTeaser", "About Genryu Japan"),
   ("home.aboutTeaserText", "Zen, Gen, Zine are not categories, but perspectives."),
   ("home.more", "More"),
   ("home.comingSoon", "Coming soon..."),
   ("home.learnMore", "Learn more"),
   ("article.readMore", "Read more"),
   ("article.readTime", "min read"),
   ("article.publishedOn", "Published on"),
   ("footer.philosophy", "Zen / Gen / Zine"),
   ("footer.tagline", "Exploring Japan through context, not clichés."),
   ("footer.navigate", "Navigate"),
   ("footer.connect", "Connect"),
   ("footer.copyright", "All rights reserved"),
   ("footer.privacy", "Privacy")]

/-- `uiJa` from `i18n.ts`: the Japanese UI strings (key-complete by the
`satisfies` check in the source). -/
def uiJa : List (String × String) :=
  [("site.title", "源流ジャパン"),
   ("site.subtitle", "深い日本の文脈への静かなインターフェース"),
   ("site.tagline", "The Origin of Flow"),
   ("nav.home", "ホーム"),
   ("nav.culture", "文化"),
   ("nav.language", "言語"),
   ("nav.food", "食"),
   ("nav.society", "社会"),
   ("nav.art", "アート"),
   ("nav.travel", "旅"),
   ("nav.about", "について"),
   ("home.editorialPicks", "編集部のおすすめ"),
   ("home.categoryGlimpses", "カテゴリから探す"),
   ("home.deepDive", "Deep Dive"),
   ("home.deepDiveDesc", "日本文化についての長文エッセイ、個人的視点から編集"),
   ("home.aboutTeaser", "源流ジャパンについて"),
   ("home.aboutTeaserText", "Zen、Gen、Zineはカテゴリではなく、視点です。"),
   ("home.more", "もっと見る"),
   ("home.comingSoon", "準備中..."),
   ("home.learnMore", "もっと知る"),
   ("article.readMore", "続きを読む"),
   ("article.readTime", "分"),
   ("article.publishedOn", "公開日"),
   ("footer.philosophy", "Zen / Gen / Zine"),
   ("footer.tagline", "日本を文脈から探る、クリシェではなく"),
   ("footer.navigate", "ナビゲーション"),
   ("footer.connect", "つながる"),
   ("footer.copyright", "All rights reserved"),
   ("footer.privacy", "プライバシー")]

/-- The `ui` record from `i18n.ts`: full translations for `en` and `ja`,
and a copy of the English table (`{...uiBase}`) for the other six
locales. -/
def ui : List (String × List (String × String)) :=
  [("en", uiBase), ("ja", uiJa),
   ("es", uiBase), ("fr", uiBase), ("th", uiBase),
   ("id", uiBase), ("zh", uiBase), ("de", uiBase)]

/-- The raw lookup `ui[locale]?.[key]` performed by `t`. -/
def uiLookup (locale key : String) : Option String :=
  (lookupKey ui locale).bind (fun table => lookupKey table key)

/-- `t` from `i18n.ts`: `ui[locale]?.[key] ?? ui[defaultLocale][key]` (the
final `getD` default models the `undefined` a doubly-failed lookup would
produce; the type system of the source rules it out). -/
def t (locale key : String) : String :=
  (uiLookup locale key).getD ((lookupKey uiBase key).getD "")

/-- The UI keys: the keys of `uiBase`. -/
def uiKeys : List String := uiBase.map Prod.fst


/-!
## Lemmas about the normalizer
-/

theorem jsize_pos (v : JValue) : 1 ≤ jsize v := by
  cases v <;> rw [jsize] <;> omega

theorem lookupField_mem {fs : List (String × JValue)} {k : String} {w : JValue}
    (h : lookupField fs k = some w) : (k, w) ∈ fs := by
  induction fs with
  | nil => simp [lookupField] at h
  | cons p ps ih =>
    rw [lookupField] at h
    by_cases hk : p.1 = k
    · rw [if_pos hk] at h
      injection h with h
      rw [List.mem_cons]
      left
      rw [← hk, ← h]
    · rw [if_neg hk] at h
      exact List.mem_cons_of_mem _ (ih h)

theorem hasKey_exists {fs : List (String × JValue)} {k : String}
    (h : hasKey fs k = true) : ∃ w, lookupField fs k = some w := by
  unfold hasKey at h
  cases hl : lookupField fs k with
  | none => rw [hl] at h; simp at h
  | some w => exact ⟨w, rfl⟩

theorem jsize_lt_of_mem_fields {fs : List (String × JValue)} {p : String × JValue}
    (h : p ∈ fs) : jsize p.2 < jsizeF fs := by
  induction fs with
  | nil => simp at h
  | cons q qs ih =>
    rw [jsizeF]
    rcases List.mem_cons.mp h with h | h
    · rw [h]; omega
    · have := ih h; omega

theorem jsize_lookupField_lt {fs : List (String × JValue)} {k : String} {w : JValue}
    (h : lookupField fs k = some w) : jsize w < jsize (.obj fs) := by
  have hm : jsize w < jsizeF fs := jsize_lt_of_mem_fields (lookupField_mem h)
  rw [jsize]
  omega

theorem jsize_lt_of_mem_list {xs : List JValue} {x : JValue}
    (h : x ∈ xs) : jsize x < jsize (.arr xs) := by
  rw [jsize]
  have : jsize x < jsizeL xs := by
    induction xs with
    | nil => simp at h
    | cons y ys ih =>
      rw [jsizeL]
      rcases List.mem_cons.mp h with h | h
      · rw [h]; omega
      · have := ih h; omega
  omega

theorem snd_mem_of_mem_enumFrom {α : Type} :
    ∀ {l : List α} {n : Nat} {p : Nat × α}, p ∈ l.enumFrom n → p.2 ∈ l := by
  intro l
  induction l with
  | nil => intro n p h; simp [List.enumFrom] at h
  | cons x xs ih =>
    intro n p h
    rw [List.enumFrom] at h
    rcases List.mem_cons.mp h with h | h
    · rw [h]; exact List.mem_cons_self _ _
    · exact List.mem_cons_of_mem _ (ih h)

theorem jsize_spreadFields_le {u : JValue} {p : String × JValue}
    (h : p ∈ spreadFields u) : jsize p.2 ≤ jsize u := by
  cases u with
  | obj fs =>
    rw [spreadFields] at h
    have := jsize_lt_of_mem_fields h
    rw [jsize]
    omega
  | arr xs =>
    rw [spreadFields] at h
    rcases List.mem_map.mp h with ⟨q, hq, hpq⟩
    have hmem : q.2 ∈ xs := snd_mem_of_mem_enumFrom hq
    have := jsize_lt_of_mem_list hmem
    have h2 : p.2 = q.2 := by rw [← hpq]
    rw [h2]
    omega
  | str s =>
    rw [spreadFields] at h
    rcases List.mem_map.mp h with ⟨q, hq, hpq⟩
    have hmem : q.2 ∈ s.data := snd_mem_of_mem_enumFrom hq
    have hne : s.data ≠ [] := by
      intro hnil
      rw [hnil] at hmem
      simp at hmem
    have hlen : 1 ≤ s.length := by
      have : s.data.length ≠ 0 := fun h0 => hne (List.eq_nil_of_length_eq_zero h0)
      show 1 ≤ s.data.length
      omega
    have h2 : p.2 = .str (String.singleton q.2) := by rw [← hpq]
    rw [h2, jsize, jsize]
    have hsing : (String.singleton q.2).length = 1 := rfl
    omega
  | null => simp [spreadFields] at h
  | bool b => simp [spreadFields] at h
  | num n => simp [spreadFields] at h

theorem jsize_merged_lt {fs : List (String × JValue)} {p : String × JValue}
    (hid : hasKey fs "id" = true) (hattr : hasKey fs "attributes" = true)
    (h : p ∈ mergedOf fs) : jsize p.2 < jsize (.obj fs) := by
  obtain ⟨wid, hwid⟩ := hasKey_exists hid
  obtain ⟨wattr, hwattr⟩ := hasKey_exists hattr
  rw [mergedOf] at h
  simp only [hwid, hwattr, Option.getD_some] at h
  rcases List.mem_cons.mp h with h | h
  · -- the `id` slot: either the attributes' own `id` value or the entity id
    cases hl : lookupField (spreadFields wattr) "id" with
    | some u =>
      have h2 : p.2 = u := by rw [h, hl]; rfl
      have hle : jsize u ≤ jsize wattr :=
        jsize_spreadFields_le (p := ("id", u)) (lookupField_mem hl)
      have := jsize_lookupField_lt hwattr
      rw [h2]
      omega
    | none =>
      have h2 : p.2 = wid := by rw [h, hl]; rfl
      rw [h2]
      exact jsize_lookupField_lt hwid
  · have hmem := List.mem_of_mem_filter h
    have hle : jsize p.2 ≤ jsize wattr := jsize_spreadFields_le hmem
    have := jsize_lookupField_lt hwattr
    omega

theorem jsize_getData_lt {w : JValue} (h : isWrapper w = true) :
    jsize (getData w) < jsize w := by
  cases w with
  | obj fs =>
    rw [isWrapper] at h
    obtain ⟨r, hr⟩ := hasKey_exists h
    rw [getData, hr, Option.getD_some]
    exact jsize_lookupField_lt hr
  | null => simp [isWrapper] at h
  | bool b => simp [isWrapper] at h
  | num n => simp [isWrapper] at h
  | str s => simp [isWrapper] at h
  | arr xs => simp [isWrapper] at h

theorem normalizeAux_succ (f : Nat) (v : JValue) :
    normalizeAux (f + 1) v = normalizeBody (normalizeAux f) v := rfl

theorem normalizeBody_obj (rec : JValue → JValue) (fs : List (String × JValue)) :
    normalizeBody rec (.obj fs) =
      if hasKey fs "id" && hasKey fs "attributes" then
        .obj ((mergedOf fs).map (fun p =>
          (p.1, if isWrapper p.2 then wrapStep rec p.2 else p.2)))
      else .obj fs := rfl

theorem wrapStep_congr {rec₁ rec₂ : JValue → JValue} {w : JValue}
    (h : ∀ x, jsize x < jsize w → rec₁ x = rec₂ x) (hw : isWrapper w = true) :
    wrapStep rec₁ w = wrapStep rec₂ w := by
  have hdlt : jsize (getData w) < jsize w := jsize_getData_lt hw
  rw [wrapStep, wrapStep]
  cases hd : getData w with
  | null => rfl
  | arr xs =>
    rw [hd] at hdlt
    show JValue.arr (xs.map rec₁) = JValue.arr (xs.map rec₂)
    congr 1
    apply List.map_congr_left
    intro x hx
    have hxlt : jsize x < jsize (.arr xs) := jsize_lt_of_mem_list hx
    exact h x (by omega)
  | bool c => rw [hd] at hdlt; exact h _ hdlt
  | num m => rw [hd] at hdlt; exact h _ hdlt
  | str s => rw [hd] at hdlt; exact h _ hdlt
  | obj gs => rw [hd] at hdlt; exact h _ hdlt

/-- Any fuel of at least `jsize v` evaluates `normalizeAux` to the same value:
the fuel is an artifact of the embedding, not of the source algorithm. -/
theorem normalizeAux_fuel_irrelevant (n : Nat) :
    ∀ f₁ f₂ v, jsize v ≤ n → jsize v ≤ f₁ → jsize v ≤ f₂ →
      normalizeAux f₁ v = normalizeAux f₂ v := by
  induction n with
  | zero =>
    intro f₁ f₂ v hn _ _
    have := jsize_pos v
    omega
  | succ n ih =>
    intro f₁ f₂ v hn h₁ h₂
    have hp := jsize_pos v
    obtain ⟨a, rfl⟩ : ∃ a, f₁ = a + 1 := ⟨f₁ - 1, by omega⟩
    obtain ⟨b, rfl⟩ : ∃ b, f₂ = b + 1 := ⟨f₂ - 1, by omega⟩
    rw [normalizeAux_succ, normalizeAux_succ]
    cases v with
    | obj fs =>
      rw [normalizeBody_obj, normalizeBody_obj]
      cases hc : (hasKey fs "id" && hasKey fs "attributes") with
      | false => simp [hc]
      | true =>
        simp only [hc, if_true]
        have hc' := hc
        rw [Bool.and_eq_true] at hc'
        obtain ⟨hid, hattr⟩ := hc'
        congr 1
        apply List.map_congr_left
        intro p hp2
        have hplt : jsize p.2 < jsize (.obj fs) := jsize_merged_lt hid hattr hp2
        cases hw : isWrapper p.2 with
        | false => simp [hw]
        | true =>
          simp only [hw, if_true]
          exact congrArg (fun z => (p.1, z))
            (wrapStep_congr (fun x hx => ih a b x (by omega) (by omega) (by omega)) hw)
    | null => rfl
    | bool c => rfl
    | num m => rfl
    | str s => rfl
    | arr xs => rfl

theorem normalizeAux_eq_normalize {f : Nat} {v : JValue} (h : jsize v ≤ f) :
    normalizeAux f v = normalize v :=
  normalizeAux_fuel_irrelevant f f (jsize v) v h h (Nat.le_refl _)

/-- Unfolding of `normalize` on an entity-shaped object: merge `id` with the
attributes, then rewrite every relation-wrapper property. -/
theorem normalize_entity {fs : List (String × JValue)}
    (hid : hasKey fs "id" = true) (hattr : hasKey fs "attributes" = true) :
    normalize (.obj fs) = .obj ((mergedOf fs).map (fun p => (p.1, wrapIf p.2))) := by
  have hsz : jsize (JValue.obj fs) = jsizeF fs + 1 := by
    rw [jsize]
    omega
  rw [normalize, hsz, normalizeAux_succ, normalizeBody_obj]
  simp only [hid, hattr, Bool.and_self, if_true]
  congr 1
  apply List.map_congr_left
  intro p hp2
  have hplt : jsize p.2 < jsize (.obj fs) := jsize_merged_lt hid hattr hp2
  rw [hsz] at hplt
  rw [wrapIf]
  cases hw : isWrapper p.2 with
  | false => simp [hw]
  | true =>
    simp only [hw, if_true]
    rw [normalizeWrapper]
    exact congrArg (fun z => (p.1, z))
      (wrapStep_congr (fun x hx => normalizeAux_eq_normalize (by omega)) hw)

theorem normalizeBody_falsy {v : JValue} (rec : JValue → JValue)
    (hf : v.isFalsy = true) : normalizeBody rec v = .null := by
  cases v with
  | null => rfl
  | bool b =>
    have h : normalizeBody rec (.bool b) =
        if (JValue.bool b).isFalsy = true then JValue.null else JValue.bool b := rfl
    rw [h, hf, if_pos rfl]
  | num n =>
    have h : normalizeBody rec (.num n) =
        if (JValue.num n).isFalsy = true then JValue.null else JValue.num n := rfl
    rw [h, hf, if_pos rfl]
  | str s =>
    have h : normalizeBody rec (.str s) =
        if (JValue.str s).isFalsy = true then JValue.null else JValue.str s := rfl
    rw [h, hf, if_pos rfl]
  | arr xs => simp [JValue.isFalsy] at hf
  | obj fs => simp [JValue.isFalsy] at hf

theorem normalizeBody_keep {v : JValue} (rec : JValue → JValue)
    (hent : entityShaped v = false) (hf : v.isFalsy = false) :
    normalizeBody rec v = v := by
  cases v with
  | obj fs =>
    rw [normalizeBody_obj]
    simp only [entityShaped] at hent
    simp [hent]
  | null => simp [JValue.isFalsy] at hf
  | bool b => simp [normalizeBody, hf]
  | num n => simp [normalizeBody, hf]
  | str s => simp [normalizeBody, hf]
  | arr xs => simp [normalizeBody, hf]

theorem normalize_falsy {v : JValue} (hf : v.isFalsy = true) : normalize v = .null := by
  obtain ⟨m, hm⟩ : ∃ m, jsize v = m + 1 := ⟨jsize v - 1, by have := jsize_pos v; omega⟩
  rw [normalize, hm, normalizeAux_succ]
  exact normalizeBody_falsy _ hf

/-- `normalize` keeps any truthy non-entity value as-is: the already-flat
case of the source. -/
theorem normalize_keep {v : JValue} (hent : entityShaped v = false)
    (hf : v.isFalsy = false) : normalize v = v := by
  obtain ⟨m, hm⟩ : ∃ m, jsize v = m + 1 := ⟨jsize v - 1, by have := jsize_pos v; omega⟩
  rw [normalize, hm, normalizeAux_succ]
  exact normalizeBody_keep _ hent hf

theorem lookupField_map (f : JValue → JValue) (l : List (String × JValue)) (k : String) :
    lookupField (l.map (fun p => (p.1, f p.2))) k = (lookupField l k).map f := by
  induction l with
  | nil => rfl
  | cons p ps ih =>
    simp only [List.map_cons, lookupField]
    by_cases h : p.1 = k
    · simp [h]
    · simp [h, ih]

theorem hasKey_map (f : JValue → JValue) (l : List (String × JValue)) (k : String) :
    hasKey (l.map (fun p => (p.1, f p.2))) k = hasKey l k := by
  rw [hasKey, hasKey, lookupField_map]
  cases lookupField l k <;> rfl

/-!
## Lemmas about the slug registry
-/

theorem lookupCount_upsert (seen : List (String × Nat)) (k : String) (n : Nat) (b : String) :
    lookupCount (upsertCount seen k n) b = if b = k then some n else lookupCount seen b := by
  induction seen with
  | nil =>
    by_cases h : b = k
    · simp [upsertCount, lookupCount, h]
    · simp [upsertCount, lookupCount, h, Ne.symm h]
  | cons p ps ih =>
    by_cases hbk : b = k
    · subst hbk
      by_cases hpk : p.1 = b
      · simp [upsertCount, lookupCount, hpk]
      · simp [upsertCount, lookupCount, hpk, ih]
    · by_cases hpk : p.1 = k
      · simp [upsertCount, lookupCount, hpk, hbk, Ne.symm hbk]
      · simp [upsertCount, lookupCount, hpk, hbk, ih]

/-- Position `pre.length` of a slug-factory run over `pre ++ txt :: post`:
the slug for `txt` is its base slug decorated with the number of
earlier texts sharing that base slug, given that the registry `seen`
accurately counts the texts already processed (`done`). -/
theorem runSlugsAux_get (pre : List String) :
    ∀ (txt : String) (post : List String) (seen : List (String × Nat)) (done : List String),
      (∀ b, (lookupCount seen b).getD 0 = (done.filter (fun u => u = b)).length) →
      (runSlugsAux seen (pre ++ txt :: post))[pre.length]? =
        some (slugOfCount (baseSlug txt)
          (((done ++ pre.map baseSlug).filter (fun u => u = baseSlug txt)).length)) := by
  induction pre with
  | nil =>
    intro txt post seen done hinv
    rw [List.nil_append, runSlugsAux]
    simp only [List.length_nil, List.getElem?_cons_zero, List.map_nil, List.append_nil]
    rw [hinv (baseSlug txt)]
  | cons q pre' ih =>
    intro txt post seen done hinv
    rw [List.cons_append, runSlugsAux]
    simp only [List.length_cons, List.getElem?_cons_succ]
    have hinv' : ∀ b,
        (lookupCount
          (upsertCount seen (baseSlug q) ((lookupCount seen (baseSlug q)).getD 0 + 1)) b).getD 0 =
        ((done ++ [baseSlug q]).filter (fun u => u = b)).length := by
      intro b
      rw [lookupCount_upsert]
      by_cases hb : b = baseSlug q
      · rw [if_pos hb, hb, hinv (baseSlug q)]
        simp [List.filter_append]
      · rw [if_neg hb, hinv b]
        simp [List.filter_append, Ne.symm hb]
    rw [ih txt post _ (done ++ [baseSlug q]) hinv']
    congr 2
    rw [List.append_assoc]
    rfl

/-!
## Lemmas about the excerpt
-/

theorem trimEndChars_length_le (l : List Char) : (trimEndChars l).length ≤ l.length := by
  rw [trimEndChars, List.length_reverse]
  calc (l.reverse.dropWhile jsWs).length
      ≤ l.reverse.length := (List.dropWhile_sublist _).length_le
    _ = l.length := List.length_reverse _

/-!
## The claims
-/

set_option maxRecDepth 100000

/-- Claim C1. The claim states that the heading ids produced from one
document are pairwise distinct. The code violates it: the suffix `-N`
appended to a repeated base slug can collide with another heading whose
base slug already had that spelling. On the document `# a\n# a-2\n# a` the
extraction yields ids `a`, `a-2`, `a-2` — a duplicate. -/
theorem C1_heading_ids_collide :
    (extractHeadings "# a\n# a-2\n# a").map Heading.id = ["a", "a-2", "a-2"] ∧
    ¬ ((extractHeadings "# a\n# a-2\n# a").map Heading.id).Nodup := by
  decide

/-- Claim C2, counterexample. Normalization is not idempotent on every
value: an entity whose attributes themselves contain an `attributes` key
flattens to an object that is again entity-shaped, and a second
normalization flattens it further. -/
theorem C2_normalize_not_idempotent :
    normalize (normalize
        (.obj [("id", .num 1), ("attributes", .obj [("attributes", .null)])])) ≠
      normalize (.obj [("id", .num 1), ("attributes", .obj [("attributes", .null)])]) := by
  intro h
  have h' : (JValue.obj [("id", JValue.num 1)]) =
      JValue.obj [("id", JValue.num 1), ("attributes", JValue.null)] := h
  simp at h'

/-- Claim C2, amended. A truthy value that is not entity-shaped (no `id`
plus `attributes` pair of keys) is returned unchanged, and
`normalize (normalize x) = normalize x` holds for every value except an
entity whose attributes mapping itself carries an `attributes` key (the
flattened object is then entity-shaped again and is flattened further, as
the counterexample shows). -/
theorem C2_normalize_idempotent_amended :
    (∀ v : JValue, entityShaped v = false → v.isFalsy = false → normalize v = v) ∧
    (∀ v : JValue, reintroducesAttributes v = false →
      normalize (normalize v) = normalize v) := by
  constructor
  · intro v hent hf
    exact normalize_keep hent hf
  · intro v hra
    cases hf : v.isFalsy with
    | true => rw [normalize_falsy hf]; rfl
    | false =>
      cases hent : entityShaped v with
      | false => rw [normalize_keep hent hf, normalize_keep hent hf]
      | true =>
        cases v with
        | obj fs =>
          obtain ⟨hid, hattr⟩ : hasKey fs "id" = true ∧ hasKey fs "attributes" = true := by
            simp only [entityShaped, Bool.and_eq_true] at hent
            exact hent
          have hmerged : hasKey (mergedOf fs) "attributes" = false := by
            simp only [reintroducesAttributes, hid, hattr, Bool.true_and] at hra
            exact hra
          rw [normalize_entity hid hattr]
          apply normalize_keep
          · simp only [entityShaped]
            rw [hasKey_map wrapIf (mergedOf fs) "attributes", hmerged, Bool.and_false]
          · rfl
        | null => simp [entityShaped] at hent
        | bool b => simp [entityShaped] at hent
        | num n => simp [entityShaped] at hent
        | str s => simp [entityShaped] at hent
        | arr xs => simp [entityShaped] at hent

/-- Witness for the amended claim C2 at a concrete flat-attribute entity. -/
theorem C2_normalize_idempotent_witness :
    reintroducesAttributes
        (.obj [("id", .num 1), ("attributes", .obj [("title", .str "x")])]) = false ∧
    normalize (normalize
        (.obj [("id", .num 1), ("attributes", .obj [("title", .str "x")])])) =
      normalize (.obj [("id", .num 1), ("attributes", .obj [("title", .str "x")])]) :=
  ⟨rfl, C2_normalize_idempotent_amended.2 _ rfl⟩

/-- Claim C3. Deduplication against the per-document registry: in any run
of the slug factory, the text at position `pre.length` gets its base slug
unmodified when no earlier text shares that base slug, and the base slug
with `-(n+1)` appended when `n ≥ 1` earlier texts share it (so the Nth
occurrence, N ≥ 2, gets `-N`). On the document
`# Intro\n## Intro\n## Intro`, extraction yields `intro`, `intro-2`,
`intro-3` in order. -/
theorem C3_slug_dedup :
    (∀ (pre : List String) (txt : String) (post : List String),
      (runSlugs (pre ++ txt :: post))[pre.length]? =
        some (slugOfCount (baseSlug txt)
          ((pre.filter (fun u => baseSlug u = baseSlug txt)).length))) ∧
    (extractHeadings "# Intro\n## Intro\n## Intro").map Heading.id =
      ["intro", "intro-2", "intro-3"] := by
  constructor
  · intro pre txt post
    rw [runSlugs, runSlugsAux_get pre txt post [] [] (fun b => rfl)]
    rw [List.nil_append, List.filter_map, List.length_map]
    rfl
  · decide

/-- Claim C4. For an entity-shaped object, every property of the merged
field list whose value is a relation wrapper is replaced in the
normalization result by: null when the wrapper payload is null, the
elementwise normalization in original order when the payload is a sequence,
and the normalization of the single payload otherwise (`normalizeWrapper`);
concretely, a payload of three sub-entities yields the three flattened
objects in original order, and a `data: null` wrapper becomes null. -/
theorem C4_wrapper_replacement :
    (∀ (fs : List (String × JValue)) (k : String) (w : JValue),
      hasKey fs "id" = true → hasKey fs "attributes" = true →
      lookupField (mergedOf fs) k = some w → isWrapper w = true →
      lookupField (objFields (normalize (.obj fs))) k = some (normalizeWrapper w)) ∧
    normalize (.obj [("id", .num 1), ("attributes", .obj [("rel", .obj [("data", .arr
        [.obj [("id", .num 2), ("attributes", .obj [("a", .num 10)])],
         .obj [("id", .num 3), ("attributes", .obj [("a", .num 11)])],
         .obj [("id", .num 4), ("attributes", .obj [("a", .num 12)])]])])])]) =
      .obj [("id", .num 1), ("rel", .arr
        [.obj [("id", .num 2), ("a", .num 10)],
         .obj [("id", .num 3), ("a", .num 11)],
         .obj [("id", .num 4), ("a", .num 12)]])] ∧
    normalize (.obj [("id", .num 1), ("attributes", .obj [("cat", .obj [("data", .null)])])]) =
      .obj [("id", .num 1), ("cat", .null)] := by
  refine ⟨?_, rfl, rfl⟩
  intro fs k w hid hattr hlk hw
  rw [normalize_entity hid hattr]
  show lookupField ((mergedOf fs).map (fun p => (p.1, wrapIf p.2))) k =
    some (normalizeWrapper w)
  rw [lookupField_map wrapIf, hlk]
  show some (wrapIf w) = some (normalizeWrapper w)
  rw [wrapIf, if_pos hw]

/-- Witness for claim C4 at a concrete entity with a `data: null` wrapper
property. -/
theorem C4_wrapper_replacement_witness :
    hasKey [("id", JValue.num 1),
      ("attributes", JValue.obj [("cat", JValue.obj [("data", JValue.null)])])] "id" = true ∧
    hasKey [("id", JValue.num 1),
      ("attributes", JValue.obj [("cat", JValue.obj [("data", JValue.null)])])] "attributes"
      = true ∧
    lookupField (mergedOf [("id", JValue.num 1),
      ("attributes", JValue.obj [("cat", JValue.obj [("data", JValue.null)])])]) "cat" =
      some (JValue.obj [("data", JValue.null)]) ∧
    isWrapper (JValue.obj [("data", JValue.null)]) = true ∧
    lookupField (objFields (normalize (.obj [("id", JValue.num 1),
      ("attributes", JValue.obj [("cat", JValue.obj [("data", JValue.null)])])]))) "cat" =
      some (normalizeWrapper (JValue.obj [("data", JValue.null)])) :=
  ⟨rfl, rfl, rfl, rfl,
    C4_wrapper_replacement.1 _ "cat" (JValue.obj [("data", JValue.null)]) rfl rfl rfl rfl⟩

/-- Claim C5, counterexample. The claim bounds the truncated excerpt's
length by `max + 1`; the code appends the three-character marker `...`
after cutting at `max` characters, so 161 copies of `a` under the default
maximum 160 give a 163-character result, exceeding the claimed 161. -/
theorem C5_excerpt_exceeds_claimed_bound :
    ¬ ((generateExcerpt (String.mk (List.replicate 161 'a')) 160).length ≤ 160 + 1) := by
  decide

/-- Claim C5, amended. Stripped plain text within the maximum is returned
verbatim with no ellipsis; longer input is cut at exactly `max` characters
(not at a word boundary), trailing whitespace is trimmed, and the
three-character marker `...` is appended, so the result has length at most
`max + 3` and ends in `...`. -/
theorem C5_generateExcerpt_amended :
    (∀ (content : String) (maxLength : Nat),
      (excerptPlain content).length ≤ maxLength →
      generateExcerpt content maxLength = excerptPlain content) ∧
    (∀ (content : String) (maxLength : Nat),
      maxLength < (excerptPlain content).length →
      generateExcerpt content maxLength =
        String.mk (trimEndChars ((excerptPlain content).data.take maxLength)) ++ "..." ∧
      (generateExcerpt content maxLength).length ≤ maxLength + 3 ∧
      ∃ s, generateExcerpt content maxLength = s ++ "...") := by
  constructor
  · intro content maxLength h
    by_cases hc : content = ""
    · rw [hc]; rfl
    · rw [generateExcerpt, if_neg hc, if_pos h]
  · intro content maxLength h
    have hc : content ≠ "" := by
      intro hc
      rw [hc] at h
      have he : excerptPlain "" = "" := rfl
      rw [he] at h
      simp at h
    have hgen : generateExcerpt content maxLength =
        String.mk (trimEndChars ((excerptPlain content).data.take maxLength)) ++ "..." := by
      rw [generateExcerpt, if_neg hc, if_neg (by omega)]
    refine ⟨hgen, ?_, ⟨_, hgen⟩⟩
    rw [hgen, String.length_append]
    have h1 : (String.mk (trimEndChars ((excerptPlain content).data.take maxLength))).length
        ≤ maxLength := by
      show (trimEndChars ((excerptPlain content).data.take maxLength)).length ≤ maxLength
      calc (trimEndChars ((excerptPlain content).data.take maxLength)).length
          ≤ ((excerptPlain content).data.take maxLength).length := trimEndChars_length_le _
        _ ≤ maxLength := List.length_take_le _ _
    have h2 : ("..." : String).length = 3 := rfl
    omega

/-- Witness for the amended claim C5: a short input is returned verbatim,
and a 161-character input under maximum 160 is truncated to 163
characters ending in the marker. -/
theorem C5_generateExcerpt_witness :
    (excerptPlain "hello world").length ≤ 160 ∧
    generateExcerpt "hello world" 160 = excerptPlain "hello world" ∧
    160 < (excerptPlain (String.mk (List.replicate 161 'a'))).length ∧
    (generateExcerpt (String.mk (List.replicate 161 'a')) 160).length ≤ 160 + 3 :=
  ⟨by decide, C5_generateExcerpt_amended.1 "hello world" 160 (by decide), by decide,
    (C5_generateExcerpt_amended.2 (String.mk (List.replicate 161 'a')) 160 (by decide)).2.1⟩

/-- Claim C6, counterexample. The fetch operations do not validate the
locale: `fetchArticles` with the unrecognized locale string `xx` issues the
request with `locale=xx`, not with the default locale. -/
theorem C6_fetch_passes_locale_through :
    isValidLocale "xx" = false ∧ "xx" ≠ defaultLocale ∧
    lookupKey (buildArticlesParams "xx" [] "publishedAt:desc" 50) "locale" = some "xx" := by
  decide

/-- Claim C6, amended. The fetch operations put the supplied locale string
into the `locale` query parameter unchanged (no validation); the fallback
to the default locale `en` for an unrecognized locale happens in
`getLocaleFromUrl`, the URL-to-locale resolution callers use before
fetching. -/
theorem C6_locale_fallback_amended :
    (∀ (locale : String) (filters : List (String × FilterValue))
      (sort : String) (pageSize : Nat),
      lookupKey (buildArticlesParams locale filters sort pageSize) "locale" = some locale) ∧
    (∀ locale : String, lookupKey (buildCategoriesParams locale) "locale" = some locale) ∧
    (∀ pathname : String, isValidLocale (firstSegment pathname) = false →
      getLocaleFromUrl pathname = defaultLocale) ∧
    (∀ pathname : String, isValidLocale (firstSegment pathname) = true →
      getLocaleFromUrl pathname = firstSegment pathname) := by
  refine ⟨fun locale filters sort pageSize => rfl, fun locale => rfl, ?_, ?_⟩
  · intro pathname h
    rw [getLocaleFromUrl]
    simp [h]
  · intro pathname h
    rw [getLocaleFromUrl]
    simp [h]

/-- Witness for the amended claim C6: an unrecognized first segment falls
back to `en`, a recognized one is kept. -/
theorem C6_locale_fallback_witness :
    isValidLocale (firstSegment "/xx/articles") = false ∧
    getLocaleFromUrl "/xx/articles" = defaultLocale ∧
    isValidLocale (firstSegment "/ja/articles") = true ∧
    getLocaleFromUrl "/ja/articles" = firstSegment "/ja/articles" :=
  ⟨by decide, C6_locale_fallback_amended.2.2.1 "/xx/articles" (by decide), by decide,
    C6_locale_fallback_amended.2.2.2 "/ja/articles" (by decide)⟩

/-- Whether a transport outcome is a failure: a rejected fetch or a
non-success HTTP status. -/
def isFailureOutcome : FetchOutcome → Bool
  | .transportError => true
  | .response ok _ => !ok

/-- Claim C7. On every failure outcome the three fetch operations return
their safe defaults — `{ data: [], meta: {} }`, `null`, `{ data: [] }` —
instead of propagating the failure (each is a total function whose `Except`
body is caught at the boundary); and a failed fetch is indistinguishable
from a successful fetch of an empty result set. -/
theorem C7_fetch_soft_fail :
    (∀ o : FetchOutcome, isFailureOutcome o = true →
      fetchArticles o = ([], .obj []) ∧ fetchArticle o = .null ∧
      fetchCategories o = ([], none)) ∧
    fetchArticles (.response true (.obj [("data", .arr []), ("meta", .obj [])])) =
      fetchArticles .transportError ∧
    fetchArticle (.response true (.obj [("data", .arr []), ("meta", .obj [])])) =
      fetchArticle .transportError ∧
    (fetchCategories (.response true (.obj [("data", .arr []), ("meta", .obj [])]))).1 =
      (fetchCategories .transportError).1 := by
  refine ⟨?_, rfl, rfl, rfl⟩
  intro o h
  cases o with
  | transportError => exact ⟨rfl, rfl, rfl⟩
  | response ok json =>
    cases ok with
    | true => simp [isFailureOutcome] at h
    | false => exact ⟨rfl, rfl, rfl⟩

/-- Witness for claim C7 at the transport-failure outcome. -/
theorem C7_fetch_soft_fail_witness :
    isFailureOutcome .transportError = true ∧
    fetchArticles .transportError = ([], .obj []) ∧
    fetchArticle .transportError = .null ∧
    fetchCategories .transportError = ([], none) :=
  ⟨rfl, C7_fetch_soft_fail.1 .transportError rfl⟩

/-- Claim C8. `calculateReadingTime` returns 0 on empty input; for the
`ja` locale it divides the whitespace-stripped character count by 400,
rounding up; for every other locale it divides the whitespace-delimited
word count by 200, rounding up. Concretely, `"word "` repeated 200 times
under `en` gives 1 and a 401-character Japanese string gives 2. -/
theorem C8_reading_time :
    (∀ locale : String, calculateReadingTime "" locale = 0) ∧
    (∀ content : String, content ≠ "" →
      calculateReadingTime content "ja" =
        ((content.data.filter (fun c => !jsWs c)).length + 399) / 400) ∧
    (∀ (content locale : String), content ≠ "" → locale ≠ "ja" →
      calculateReadingTime content locale = (countWords content + 199) / 200) ∧
    calculateReadingTime "" "en" = 0 ∧
    calculateReadingTime (String.join (List.replicate 200 "word ")) "en" = 1 ∧
    calculateReadingTime (String.mk (List.replicate 401 'あ')) "ja" = 2 := by
  refine ⟨fun locale => rfl, ?_, ?_, rfl, by decide, by decide⟩
  · intro content h
    rw [calculateReadingTime, if_neg h, if_pos rfl]
  · intro content locale h h'
    rw [calculateReadingTime, if_neg h, if_neg h']

/-- Witness for claim C8 at concrete inputs for both locale branches. -/
theorem C8_reading_time_witness :
    calculateReadingTime "あ" "ja" =
      ((("あ" : String).data.filter (fun c => !jsWs c)).length + 399) / 400 ∧
    calculateReadingTime "word two" "en" = (countWords "word two" + 199) / 200 :=
  ⟨C8_reading_time.2.1 "あ" (by decide),
    C8_reading_time.2.2.1 "word two" "en" (by decide) (by decide)⟩

/-- Claim C9. `parseMarkdown` never raises: it is a total function, and
whenever the underlying renderer throws, the exception is caught and the
original unrendered Markdown input is returned unchanged. -/
theorem C9_parseMarkdown_fallback :
    ∀ (render : String → Except String String) (markdown e : String),
      render markdown = .error e → parseMarkdown render markdown = markdown := by
  intro render markdown e h
  by_cases hm : markdown = ""
  · rw [hm]; rfl
  · rw [parseMarkdown, if_neg hm, h]

/-- Witness for claim C9 with an always-throwing renderer. -/
theorem C9_parseMarkdown_fallback_witness :
    (fun _ : String => (Except.error "boom" : Except String String)) "# title" =
      Except.error "boom" ∧
    parseMarkdown (fun _ : String => (Except.error "boom" : Except String String))
      "# title" = "# title" :=
  ⟨rfl, C9_parseMarkdown_fallback _ "# title" "boom" rfl⟩

/-- Claim C10. For each of the eight supported locales and every UI key the
lookup `ui[locale][key]` is defined, and for the six locales other than
`en` and `ja` the returned string equals the English one (their tables are
copies of `uiBase`). -/
theorem C10_ui_total_and_english_copies :
    ∀ l ∈ locales, ∀ k ∈ uiKeys,
      (uiLookup l k).isSome = true ∧
      (l ∈ (["es", "fr", "th", "id", "zh", "de"] : List String) → t l k = t "en" k) := by
  decide

/-- Witness for claim C10 at the Spanish locale and a concrete key. -/
theorem C10_ui_witness :
    ("es" ∈ locales) ∧ ("nav.home" ∈ uiKeys) ∧
    (uiLookup "es" "nav.home").isSome = true ∧ t "es" "nav.home" = t "en" "nav.home" :=
  ⟨by decide, by decide,
    (C10_ui_total_and_english_copies "es" (by decide) "nav.home" (by decide)).1,
    (C10_ui_total_and_english_copies "es" (by decide) "nav.home" (by decide)).2 (by decide)⟩

end Genryu
